import Mathlib

/-!
Shallow embedding of the `quest_system` ticket queue (src/queue.go) and the
bank-counter dispatch (ServeCustomer), together with proofs about the
specification's claims.

Modelling conventions:
* `time.Time` values are modelled as `Nat` instants; `IssueTicket` takes the
  current instant as an explicit `now` argument (the Go code reads the wall
  clock for both `QueueTime` and `CreatedAt`).
* `uint32` arithmetic is modelled on `Nat` with an explicit `% 2^32` where the
  Go code increments `nextTicketNum`.
* The Go map `map[uint32]int` is modelled as an association list with
  overwrite-on-set, delete-by-key and first-match lookup.
* Go's `container/heap` package functions (`Push`, `Pop`, `up`, `down`) are
  embedded verbatim over the queue's own `Len`/`Less`/`Swap`/`Push`/`Pop`
  methods, exactly as the Go runtime composes them.
* Mutex locking and logging have no observable effect on the data and are not
  modelled; fallible operations return their results explicitly
  (`Option`/`Bool`) in state-passing style.
-/

namespace QSys

/-- The `Ticket` record of src/queue.go. -/
structure Ticket where
  number : Nat
  name : String
  queueTime : Nat
  priority : Nat
  createdAt : Nat
  isCancelled : Bool
deriving Repr, DecidableEq, Inhabited

/-- Modulus of Go's `uint32`, the type of `nextTicketNum` and `Number`. -/
def u32 : Nat := 2 ^ 32

/-- Association-list model of Go's `map[uint32]int`: set (overwrite). -/
def mapSet : List (Nat × Nat) → Nat → Nat → List (Nat × Nat)
  | [], k, v => [(k, v)]
  | (k', v') :: rest, k, v =>
      if k' = k then (k, v) :: rest else (k', v') :: mapSet rest k v

/-- Association-list model of Go's `map[uint32]int`: lookup. -/
def mapGet? : List (Nat × Nat) → Nat → Option Nat
  | [], _ => none
  | (k', v') :: rest, k => if k' = k then some v' else mapGet? rest k

/-- Association-list model of Go's `map[uint32]int`: `delete`. -/
def mapDel : List (Nat × Nat) → Nat → List (Nat × Nat)
  | [], _ => []
  | (k', v') :: rest, k => if k' = k then mapDel rest k else (k', v') :: mapDel rest k

/-- The `Queue` record of src/queue.go (mutex omitted). -/
structure Queue where
  tickets : List Ticket
  nextTicketNum : Nat
  ticketIndexMap : List (Nat × Nat)
deriving Repr, DecidableEq, Inhabited

/-- `NewQueue` of src/queue.go. -/
def NewQueue : Queue :=
  { tickets := [], nextTicketNum := 0, ticketIndexMap := [] }

/-- The queue's `Less` method (src/queue.go lines 162-168): priority
descending, ties broken by earlier `CreatedAt`. -/
def lessTicket (a b : Ticket) : Bool :=
  if a.priority = b.priority then decide (a.createdAt < b.createdAt)
  else decide (b.priority < a.priority)

/-- `Less` on heap positions (out-of-range reads yield `default`; the heap
algorithms below only compare in-range positions). -/
def Queue.lessQ (q : Queue) (i j : Nat) : Bool :=
  lessTicket (q.tickets.getD i default) (q.tickets.getD j default)

/-- The queue's `Swap` method (src/queue.go lines 170-174): swap the two
slots, then record both tickets' new positions in the index map. -/
def Queue.swapQ (q : Queue) (i j : Nat) : Queue :=
  let ti := q.tickets.getD i default
  let tj := q.tickets.getD j default
  { q with
    tickets := (q.tickets.set i tj).set j ti
    ticketIndexMap := mapSet (mapSet q.ticketIndexMap tj.number i) ti.number j }

/-- The queue's `Push` method (src/queue.go lines 176-180). -/
def Queue.pushQ (q : Queue) (t : Ticket) : Queue :=
  let ts := q.tickets ++ [t]
  { q with tickets := ts, ticketIndexMap := mapSet q.ticketIndexMap t.number (ts.length - 1) }

/-- The queue's `Pop` method (src/queue.go lines 182-189): remove and return
the last slot, deleting its number from the index map. -/
def Queue.popQ (q : Queue) : Ticket × Queue :=
  let n := q.tickets.length
  let t := q.tickets.getD (n - 1) default
  (t, { q with tickets := q.tickets.take (n - 1), ticketIndexMap := mapDel q.ticketIndexMap t.number })

/-- Go `container/heap`'s `up` (sift-up) specialised to the queue. -/
def upHeap (q : Queue) (j : Nat) : Queue :=
  if j = 0 then q
  else
    if q.lessQ j ((j - 1) / 2) then upHeap (q.swapQ ((j - 1) / 2) j) ((j - 1) / 2)
    else q
termination_by j
decreasing_by
  have h2 : (j - 1) / 2 ≤ j - 1 := Nat.div_le_self _ 2
  omega

/-- Child selection inside Go `container/heap`'s `down`: the second child is
chosen when it exists and precedes the first. -/
def pickChild (q : Queue) (i n : Nat) : Nat :=
  if 2 * i + 2 < n ∧ q.lessQ (2 * i + 2) (2 * i + 1) = true then 2 * i + 2
  else 2 * i + 1

/-- Go `container/heap`'s `down` (sift-down) specialised to the queue. -/
def downHeap (q : Queue) (i n : Nat) : Queue :=
  if 2 * i + 1 < n then
    if q.lessQ (pickChild q i n) i then downHeap (q.swapQ i (pickChild q i n)) (pickChild q i n) n
    else q
  else q
termination_by n - i
decreasing_by
  simp only [pickChild]
  split <;> omega

/-- Go `heap.Push`: the container's `Push` followed by sift-up from the last
slot. -/
def heapPush (q : Queue) (t : Ticket) : Queue :=
  let q1 := q.pushQ t
  upHeap q1 (q1.tickets.length - 1)

/-- Go `heap.Pop`: swap root to the end, sift-down on the shortened prefix,
then the container's `Pop`. -/
def heapPop (q : Queue) : Ticket × Queue :=
  let n := q.tickets.length - 1
  let q1 := q.swapQ 0 n
  let q2 := downHeap q1 0 n
  q2.popQ

theorem swapQ_tickets_length (q : Queue) (i j : Nat) :
    (q.swapQ i j).tickets.length = q.tickets.length := by
  simp [Queue.swapQ]

theorem downHeap_tickets_length (q : Queue) (i n : Nat) :
    (downHeap q i n).tickets.length = q.tickets.length := by
  induction q, i, n using downHeap.induct with
  | case1 q i n h1 h2 ih => rw [downHeap, if_pos h1, if_pos h2, ih, swapQ_tickets_length]
  | case2 q i n h1 h2 => rw [downHeap, if_pos h1, if_neg h2]
  | case3 q i n h1 => rw [downHeap, if_neg h1]

theorem popQ_snd_tickets_length (q : Queue) :
    (q.popQ).2.tickets.length = q.tickets.length - 1 := by
  simp [Queue.popQ]

theorem heapPop_snd_tickets_length (q : Queue) :
    (heapPop q).2.tickets.length = q.tickets.length - 1 := by
  rw [heapPop, popQ_snd_tickets_length, downHeap_tickets_length, swapQ_tickets_length]

/-- `IssueTicket` of src/queue.go (lines 37-60): build the ticket, `heap.Push`
it, increment `nextTicketNum` (uint32), then store
`ticketIndexMap[number] = len(tickets) - 1`. -/
def IssueTicket (q : Queue) (name : String) (priority : Nat) (now : Nat) :
    Ticket × Queue :=
  let ticket : Ticket :=
    { number := q.nextTicketNum, name := name, queueTime := now
      priority := priority, createdAt := now, isCancelled := false }
  let q1 := heapPush q ticket
  let q2 := { q1 with nextTicketNum := (q1.nextTicketNum + 1) % u32 }
  let q3 := { q2 with
              ticketIndexMap := mapSet q2.ticketIndexMap ticket.number (q2.tickets.length - 1) }
  (ticket, q3)

/-- `CancelTicket` of src/queue.go (lines 63-75). -/
def CancelTicket (q : Queue) (ticketNumber : Nat) : Bool × Queue :=
  match mapGet? q.ticketIndexMap ticketNumber with
  | some index =>
      let t := q.tickets.getD index default
      (true, { q with tickets := q.tickets.set index { t with isCancelled := true } })
  | none => (false, q)

/-- `IsValidTicket` of src/queue.go (lines 78-92); read-only, so modelled as a
pure function of the queue. -/
def IsValidTicket (q : Queue) (ticketNumber : Nat) : Bool :=
  match mapGet? q.ticketIndexMap ticketNumber with
  | none => false
  | some index => !(q.tickets.getD index default).isCancelled

/-- `ServeTicket` of src/queue.go (lines 95-114): pop until a non-cancelled
ticket appears; `none` models the `no customers in queue` error. -/
def ServeTicket (q : Queue) : Option Ticket × Queue :=
  if 0 < q.tickets.length then
    if (heapPop q).1.isCancelled then ServeTicket (heapPop q).2
    else (some (heapPop q).1, (heapPop q).2)
  else (none, q)
termination_by q.tickets.length
decreasing_by
  have h := heapPop_snd_tickets_length q
  omega

/-- The active-ticket scan of `ResetTicketNumber` (src/queue.go lines 123-129):
`true` as soon as a non-cancelled ticket is found. -/
def hasActiveTicket : List Ticket → Bool
  | [] => false
  | t :: rest => if t.isCancelled = false then true else hasActiveTicket rest

/-- `ResetTicketNumber` of src/queue.go (lines 118-137). -/
def ResetTicketNumber (q : Queue) : Bool × Queue :=
  if hasActiveTicket q.tickets then (false, q)
  else (true, { tickets := [], nextTicketNum := 0, ticketIndexMap := [] })

/-- `GetQueueSize` of src/queue.go. -/
def GetQueueSize (q : Queue) : Nat := q.tickets.length

/-- `GetTicketIndex` of src/queue.go. -/
def GetTicketIndex (q : Queue) (ticketNumber : Nat) : Option Nat :=
  mapGet? q.ticketIndexMap ticketNumber

/-- `BankCounter.ServeCustomer` of src/queue.go (lines 214-231), observed as
(resulting queue, number of `wg.Done` signals fired). On the error path the
function returns before `defer bc.wg.Done()` is registered; on the normal path
the deferred call fires exactly once whether or not `serveFn` errors. -/
def ServeCustomer (q : Queue) (serveFn : Ticket → Except String Unit) :
    Queue × Nat :=
  match ServeTicket q with
  | (none, q1) => (q1, 0)
  | (some t, q1) =>
      match serveFn t with
      | .error _ => (q1, 1)
      | .ok _ => (q1, 1)

/-! ### The comparator as an order -/

/-- `nth l k`: the ticket the heap algorithms read at position `k`. -/
def nth (l : List Ticket) (k : Nat) : Ticket := l.getD k default

theorem lessTicket_true_iff (a b : Ticket) :
    lessTicket a b = true ↔
      (a.priority = b.priority ∧ a.createdAt < b.createdAt) ∨ b.priority < a.priority := by
  unfold lessTicket
  split
  next h => simp only [decide_eq_true_eq]; omega
  next h => simp only [decide_eq_true_eq]; omega

theorem lessTicket_false_iff (a b : Ticket) :
    lessTicket a b = false ↔
      a.priority < b.priority ∨ (a.priority = b.priority ∧ b.createdAt ≤ a.createdAt) := by
  rw [← Bool.not_eq_true, lessTicket_true_iff]
  omega

theorem lessTicket_irrefl (a : Ticket) : lessTicket a a = false := by
  rw [lessTicket_false_iff]; omega

theorem lessTicket_asymm {a b : Ticket} (h : lessTicket a b = true) :
    lessTicket b a = false := by
  rw [lessTicket_true_iff] at h
  rw [lessTicket_false_iff]
  omega

theorem lessTicket_false_trans {a b c : Ticket}
    (h1 : lessTicket a b = false) (h2 : lessTicket b c = false) :
    lessTicket a c = false := by
  rw [lessTicket_false_iff] at h1 h2 ⊢
  omega

theorem lessTicket_shift {a b c : Ticket}
    (h1 : lessTicket b a = true) (h2 : lessTicket c a = false) :
    lessTicket c b = false := by
  rw [lessTicket_true_iff] at h1
  rw [lessTicket_false_iff] at h2 ⊢
  omega

theorem lessTicket_congr {a a' b b' : Ticket}
    (ha1 : a.priority = a'.priority) (ha2 : a.createdAt = a'.createdAt)
    (hb1 : b.priority = b'.priority) (hb2 : b.createdAt = b'.createdAt) :
    lessTicket a b = lessTicket a' b' := by
  unfold lessTicket
  rw [ha1, ha2, hb1, hb2]

/-! ### Positional lemmas about lists of tickets -/

theorem nth_eq_getElem (l : List Ticket) (k : Nat) (h : k < l.length) :
    nth l k = l[k] := by
  simp [nth, List.getD_eq_getElem?_getD, List.getElem?_eq_getElem h]

theorem nth_mem (l : List Ticket) (k : Nat) (h : k < l.length) : nth l k ∈ l := by
  rw [nth_eq_getElem l k h]
  exact List.getElem_mem h

theorem mem_iff_nth (l : List Ticket) (x : Ticket) :
    x ∈ l ↔ ∃ k, k < l.length ∧ nth l k = x := by
  constructor
  · intro hx
    obtain ⟨k, hk, he⟩ := List.getElem_of_mem hx
    exact ⟨k, hk, by rw [nth_eq_getElem l k hk, he]⟩
  · rintro ⟨k, hk, rfl⟩
    exact nth_mem l k hk

theorem nth_set_self (l : List Ticket) (i : Nat) (a : Ticket) (h : i < l.length) :
    nth (l.set i a) i = a := by
  simp [nth, List.getD_eq_getElem?_getD, List.getElem?_set_self h]

theorem nth_set_ne (l : List Ticket) {i k : Nat} (a : Ticket) (h : i ≠ k) :
    nth (l.set i a) k = nth l k := by
  simp [nth, List.getD_eq_getElem?_getD, List.getElem?_set_ne h]

theorem nth_append_left (l : List Ticket) (t : Ticket) (k : Nat) (h : k < l.length) :
    nth (l ++ [t]) k = nth l k := by
  simp [nth, List.getD_eq_getElem?_getD, List.getElem?_append_left h]

theorem nth_append_last (l : List Ticket) (t : Ticket) :
    nth (l ++ [t]) l.length = t := by
  simp [nth, List.getD_eq_getElem?_getD]

theorem nth_take (l : List Ticket) {n k : Nat} (h : k < n) :
    nth (l.take n) k = nth l k := by
  simp [nth, List.getD_eq_getElem?_getD, List.getElem?_take_of_lt h]

/-! ### The swap operation on the backing list -/

/-- The list component of the queue's `Swap` method. -/
def swapList (l : List Ticket) (i j : Nat) : List Ticket :=
  (l.set i (nth l j)).set j (nth l i)

theorem swapQ_tickets (q : Queue) (i j : Nat) :
    (q.swapQ i j).tickets = swapList q.tickets i j := rfl

theorem length_swapList (l : List Ticket) (i j : Nat) :
    (swapList l i j).length = l.length := by
  simp [swapList]

theorem nth_swapList_snd (l : List Ticket) (i j : Nat) (hj : j < l.length) :
    nth (swapList l i j) j = nth l i := by
  unfold swapList
  rw [nth_set_self]
  simpa using hj

theorem nth_swapList_fst (l : List Ticket) (i j : Nat) (hi : i < l.length) (hij : i ≠ j) :
    nth (swapList l i j) i = nth l j := by
  unfold swapList
  rw [nth_set_ne _ _ (fun h => hij h.symm), nth_set_self _ _ _ hi]

theorem nth_swapList_other (l : List Ticket) (i j k : Nat) (hki : k ≠ i) (hkj : k ≠ j) :
    nth (swapList l i j) k = nth l k := by
  unfold swapList
  rw [nth_set_ne _ _ (fun h => hkj h.symm), nth_set_ne _ _ (fun h => hki h.symm)]

theorem mem_of_mem_swapList {l : List Ticket} {i j : Nat} {x : Ticket}
    (hi : i < l.length) (hj : j < l.length) (hx : x ∈ swapList l i j) : x ∈ l := by
  unfold swapList at hx
  rcases List.mem_or_eq_of_mem_set hx with hx' | rfl
  · rcases List.mem_or_eq_of_mem_set hx' with hx'' | rfl
    · exact hx''
    · exact nth_mem l j hj
  · exact nth_mem l i hi

theorem set_cons_perm :
    ∀ (l : List Ticket) (m : Nat) (a : Ticket), m < l.length →
      List.Perm (nth l m :: l.set m a) (a :: l)
  | b :: t, 0, a, _ => by
      simpa [nth] using List.Perm.swap a b t
  | b :: t, m + 1, a, h => by
      have ih := set_cons_perm t m a (by simpa using h)
      have h1 : List.Perm (nth t m :: b :: t.set m a) (b :: (nth t m :: t.set m a)) :=
        List.Perm.swap b (nth t m) (t.set m a)
      have h2 : List.Perm (b :: (nth t m :: t.set m a)) (b :: (a :: t)) :=
        List.Perm.cons b ih
      have h3 : List.Perm (b :: a :: t) (a :: b :: t) := List.Perm.swap a b t
      have : nth (b :: t) (m + 1) = nth t m := by simp [nth]
      rw [this]
      exact (h1.trans h2).trans h3

theorem swapList_perm (l : List Ticket) (i j : Nat) (hi : i < l.length) (hj : j < l.length) :
    List.Perm (swapList l i j) l := by
  by_cases hij : i = j
  · subst hij
    unfold swapList
    rw [List.set_set]
    have h := set_cons_perm l i (nth l i) hi
    exact List.Perm.cons_inv h
  · have hlen : j < (l.set i (nth l j)).length := by simpa using hj
    have h1 := set_cons_perm (l.set i (nth l j)) j (nth l i) hlen
    have h2 := set_cons_perm l i (nth l j) hi
    have h3 : nth (l.set i (nth l j)) j = nth l j := nth_set_ne l _ hij
    rw [h3] at h1
    exact List.Perm.cons_inv (h1.trans h2)

/-! ### The binary-heap ordering invariant -/

theorem lessQ_eq (q : Queue) (i j : Nat) :
    q.lessQ i j = lessTicket (nth q.tickets i) (nth q.tickets j) := rfl

/-- `heapOrd l n`: within the prefix of length `n`, no child precedes its
parent under the queue's comparator — the invariant Go's `container/heap`
maintains over the backing array. -/
def heapOrd (l : List Ticket) (n : Nat) : Prop :=
  ∀ p c : Nat, c < n → (c = 2 * p + 1 ∨ c = 2 * p + 2) →
    lessTicket (nth l c) (nth l p) = false

theorem heapOrd_root (l : List Ticket) (n : Nat) (h : heapOrd l n) :
    ∀ k, k < n → lessTicket (nth l k) (nth l 0) = false := by
  intro k
  induction k using Nat.strong_induction_on with
  | _ k ih =>
    intro hk
    rcases Nat.eq_zero_or_pos k with rfl | hk0
    · exact lessTicket_irrefl _
    · have hchild : k = 2 * ((k - 1) / 2) + 1 ∨ k = 2 * ((k - 1) / 2) + 2 := by omega
      have h1 := h ((k - 1) / 2) k hk hchild
      have h2 := ih ((k - 1) / 2) (by omega) (by omega)
      exact lessTicket_false_trans h1 h2

/-- Invariant of Go's sift-up at position `j`: every parent-child pair of the
prefix holds except possibly `(parent j, j)`, and the children of `j` do not
precede the parent of `j`. -/
def upInv (l : List Ticket) (n j : Nat) : Prop :=
  (∀ p c : Nat, c < n → (c = 2 * p + 1 ∨ c = 2 * p + 2) → ¬(p = (j - 1) / 2 ∧ c = j) →
    lessTicket (nth l c) (nth l p) = false)
  ∧ (∀ c : Nat, c < n → (c = 2 * j + 1 ∨ c = 2 * j + 2) → j ≠ 0 →
    lessTicket (nth l c) (nth l ((j - 1) / 2)) = false)

theorem upInv_swap (l : List Ticket) (j : Nat) (hlen : j < l.length) (hj0 : j ≠ 0)
    (hless : lessTicket (nth l j) (nth l ((j - 1) / 2)) = true)
    (h : upInv l l.length j) :
    upInv (swapList l ((j - 1) / 2) j) l.length ((j - 1) / 2) := by
  obtain ⟨h1, h2⟩ := h
  set i := (j - 1) / 2 with hi
  have hij : i < j := by omega
  have hchild : j = 2 * i + 1 ∨ j = 2 * i + 2 := by omega
  have hiL : i < l.length := lt_trans hij hlen
  constructor
  · intro p c hc hcc hex
    by_cases hcj : c = j
    · have hpi : p = i := by omega
      rw [hcj, hpi, nth_swapList_snd l i j hlen, nth_swapList_fst l i j hiL (by omega)]
      exact lessTicket_asymm hless
    · by_cases hci : c = i
      · exact absurd ⟨by omega, hci⟩ hex
      · have hcn : nth (swapList l i j) c = nth l c := nth_swapList_other l i j c hci hcj
        by_cases hpi : p = i
        · subst hpi
          rw [hcn, nth_swapList_fst l i j hiL (by omega)]
          have hcI : lessTicket (nth l c) (nth l i) = false :=
            h1 i c hc hcc (fun hx => hcj hx.2)
          exact lessTicket_shift hless hcI
        · by_cases hpj : p = j
          · rw [hpj] at hcc
            rw [hpj, hcn, nth_swapList_snd l i j hlen]
            exact h2 c hc hcc hj0
          · rw [hcn, nth_swapList_other l i j p hpi hpj]
            exact h1 p c hc hcc (fun hx => hcj hx.2)
  · intro c hc hcc hi0
    have hppi : (i - 1) / 2 ≠ i := by omega
    have hppj : (i - 1) / 2 ≠ j := by omega
    have hpp : nth (swapList l i j) ((i - 1) / 2) = nth l ((i - 1) / 2) :=
      nth_swapList_other l i j _ hppi hppj
    have hichild : i = 2 * ((i - 1) / 2) + 1 ∨ i = 2 * ((i - 1) / 2) + 2 := by omega
    have hIpar : lessTicket (nth l i) (nth l ((i - 1) / 2)) = false :=
      h1 ((i - 1) / 2) i hiL hichild (fun hx => by omega)
    by_cases hcj : c = j
    · rw [hcj, nth_swapList_snd l i j hlen, hpp]
      exact hIpar
    · have hci : c ≠ i := by omega
      rw [nth_swapList_other l i j c hci hcj, hpp]
      have hcI : lessTicket (nth l c) (nth l i) = false :=
        h1 i c hc hcc (fun hx => hcj hx.2)
      exact lessTicket_false_trans hcI hIpar

theorem upHeap_tickets_length (q : Queue) (j : Nat) :
    (upHeap q j).tickets.length = q.tickets.length := by
  induction q, j using upHeap.induct with
  | case1 q => rw [upHeap, if_pos rfl]
  | case2 q j h0 hless ih => rw [upHeap, if_neg h0, if_pos hless, ih, swapQ_tickets_length]
  | case3 q j h0 hless => rw [upHeap, if_neg h0, if_neg hless]

theorem swapQ_nextTicketNum (q : Queue) (i j : Nat) :
    (q.swapQ i j).nextTicketNum = q.nextTicketNum := rfl

theorem upHeap_nextTicketNum (q : Queue) (j : Nat) :
    (upHeap q j).nextTicketNum = q.nextTicketNum := by
  induction q, j using upHeap.induct with
  | case1 q => rw [upHeap, if_pos rfl]
  | case2 q j h0 hless ih => rw [upHeap, if_neg h0, if_pos hless, ih, swapQ_nextTicketNum]
  | case3 q j h0 hless => rw [upHeap, if_neg h0, if_neg hless]

theorem upHeap_heapOrd (q : Queue) (j : Nat) (hj : j < q.tickets.length)
    (h : upInv q.tickets q.tickets.length j) :
    heapOrd (upHeap q j).tickets q.tickets.length := by
  induction q, j using upHeap.induct with
  | case1 q =>
      rw [upHeap, if_pos rfl]
      intro p c hc hcc
      exact h.1 p c hc hcc (fun hx => by omega)
  | case2 q j h0 hless ih =>
      rw [upHeap, if_neg h0, if_pos hless]
      have hless' : lessTicket (nth q.tickets j) (nth q.tickets ((j - 1) / 2)) = true := hless
      have hinv := upInv_swap q.tickets j hj h0 hless' h
      have hlen : (q.swapQ ((j - 1) / 2) j).tickets = swapList q.tickets ((j - 1) / 2) j :=
        swapQ_tickets q _ j
      have hj' : (j - 1) / 2 < (q.swapQ ((j - 1) / 2) j).tickets.length := by
        rw [swapQ_tickets_length]; omega
      have := ih hj' (by rw [hlen, length_swapList]; exact hinv)
      rw [swapQ_tickets_length] at this
      exact this
  | case3 q j h0 hless =>
      rw [upHeap, if_neg h0, if_neg hless]
      have hless' : lessTicket (nth q.tickets j) (nth q.tickets ((j - 1) / 2)) = false := by
        have := hless
        rw [lessQ_eq] at this
        exact Bool.eq_false_iff.mpr this
      intro p c hc hcc
      by_cases hcj : c = j
      · have hpi : p = (j - 1) / 2 := by omega
        subst hcj; subst hpi
        exact hless'
      · exact h.1 p c hc hcc (fun hx => hcj hx.2)

theorem pushQ_tickets (q : Queue) (t : Ticket) :
    (q.pushQ t).tickets = q.tickets ++ [t] := rfl

theorem upInv_push (l : List Ticket) (t : Ticket) (h : heapOrd l l.length) :
    upInv (l ++ [t]) (l.length + 1) l.length := by
  constructor
  · intro p c hc hcc hex
    by_cases hcl : c = l.length
    · exact absurd ⟨by omega, hcl⟩ hex
    · have hc' : c < l.length := by omega
      have hp' : p < l.length := by omega
      rw [nth_append_left l t c hc', nth_append_left l t p hp']
      exact h p c hc' hcc
  · intro c hc hcc hj0
    exfalso; omega

theorem heapPush_tickets_length (q : Queue) (t : Ticket) :
    (heapPush q t).tickets.length = q.tickets.length + 1 := by
  show (upHeap (q.pushQ t) ((q.pushQ t).tickets.length - 1)).tickets.length = _
  rw [upHeap_tickets_length, pushQ_tickets, List.length_append, List.length_cons,
    List.length_nil]

theorem heapPush_nextTicketNum (q : Queue) (t : Ticket) :
    (heapPush q t).nextTicketNum = q.nextTicketNum := by
  show (upHeap (q.pushQ t) ((q.pushQ t).tickets.length - 1)).nextTicketNum = _
  rw [upHeap_nextTicketNum]
  rfl

theorem heapPush_heapOrd (q : Queue) (t : Ticket) (h : heapOrd q.tickets q.tickets.length) :
    heapOrd (heapPush q t).tickets (q.tickets.length + 1) := by
  show heapOrd (upHeap (q.pushQ t) ((q.pushQ t).tickets.length - 1)).tickets _
  have hlen : (q.pushQ t).tickets.length = q.tickets.length + 1 := by
    rw [pushQ_tickets]; simp
  have he : (q.pushQ t).tickets.length - 1 = q.tickets.length := by omega
  rw [he]
  have hinv : upInv (q.pushQ t).tickets (q.pushQ t).tickets.length q.tickets.length := by
    rw [pushQ_tickets]
    simpa using upInv_push q.tickets t h
  have := upHeap_heapOrd (q.pushQ t) q.tickets.length (by omega) hinv
  rw [hlen] at this
  exact this

/-! ### Sift-down correctness -/

theorem pickChild_child (q : Queue) (i n : Nat) :
    pickChild q i n = 2 * i + 1 ∨ pickChild q i n = 2 * i + 2 := by
  unfold pickChild
  split
  · right; rfl
  · left; rfl

theorem pickChild_lt (q : Queue) (i n : Nat) (h : 2 * i + 1 < n) : pickChild q i n < n := by
  unfold pickChild
  split
  next hx => exact hx.1
  next hx => exact h

theorem pickChild_best (q : Queue) (i n : Nat) (_hn : 2 * i + 1 < n) :
    ∀ c, (c = 2 * i + 1 ∨ c = 2 * i + 2) → c < n →
      lessTicket (nth q.tickets c) (nth q.tickets (pickChild q i n)) = false := by
  intro c hcc hcn
  unfold pickChild
  split
  next hx =>
      rcases hcc with rfl | rfl
      · have hl := hx.2
        rw [lessQ_eq] at hl
        exact lessTicket_asymm hl
      · exact lessTicket_irrefl _
  next hx =>
      rcases hcc with rfl | rfl
      · exact lessTicket_irrefl _
      · have hne : ¬(q.lessQ (2 * i + 2) (2 * i + 1) = true) := fun hl => hx ⟨hcn, hl⟩
        have hf := Bool.eq_false_iff.mpr hne
        rw [lessQ_eq] at hf
        exact hf

/-- Invariant of Go's sift-down at position `i`: every parent-child pair of
the prefix holds except those parented at `i`, and the children of `i` do not
precede the parent of `i`. -/
def downInv (l : List Ticket) (n i : Nat) : Prop :=
  (∀ p c : Nat, c < n → (c = 2 * p + 1 ∨ c = 2 * p + 2) → p ≠ i →
    lessTicket (nth l c) (nth l p) = false)
  ∧ (∀ c pp : Nat, c < n → (c = 2 * i + 1 ∨ c = 2 * i + 2) → (i = 2 * pp + 1 ∨ i = 2 * pp + 2) →
    lessTicket (nth l c) (nth l pp) = false)

theorem downInv_swap (q : Queue) (i n : Nat) (hn : n ≤ q.tickets.length)
    (hc1 : 2 * i + 1 < n)
    (hless : q.lessQ (pickChild q i n) i = true)
    (h : downInv q.tickets n i) :
    downInv (swapList q.tickets i (pickChild q i n)) n (pickChild q i n) := by
  obtain ⟨h1, h2⟩ := h
  set l := q.tickets with hl
  set j := pickChild q i n with hj
  have hjc : j = 2 * i + 1 ∨ j = 2 * i + 2 := pickChild_child q i n
  have hjn : j < n := pickChild_lt q i n hc1
  have hij : i < j := by omega
  have hiL : i < l.length := by omega
  have hjL : j < l.length := by omega
  have hless' : lessTicket (nth l j) (nth l i) = true := by rw [← lessQ_eq]; exact hless
  constructor
  · intro p c hc hcc hpj
    by_cases hcj : c = j
    · have hpi : p = i := by omega
      rw [hcj, hpi, nth_swapList_snd l i j hjL, nth_swapList_fst l i j hiL (by omega)]
      exact lessTicket_asymm hless'
    · by_cases hci : c = i
      · have hpi : p ≠ i := by omega
        have hpj' : p ≠ j := by omega
        rw [hci, nth_swapList_fst l i j hiL (by omega), nth_swapList_other l i j p hpi hpj']
        rw [hci] at hcc
        exact h2 j p hjn hjc hcc
      · have hcn' : nth (swapList l i j) c = nth l c := nth_swapList_other l i j c hci hcj
        by_cases hpi : p = i
        · rw [hpi] at hcc
          rw [hcn', hpi, nth_swapList_fst l i j hiL (by omega)]
          exact pickChild_best q i n hc1 c hcc hc
        · rw [hcn', nth_swapList_other l i j p hpi hpj]
          exact h1 p c hc hcc hpi
  · intro c pp hc hcc hppc
    have hppi : pp = i := by omega
    have hciF : c ≠ i := by omega
    have hcjF : c ≠ j := by omega
    rw [hppi, nth_swapList_other l i j c hciF hcjF, nth_swapList_fst l i j hiL (by omega)]
    exact h1 j c hc hcc (by omega)

theorem downHeap_heapOrd (q : Queue) (i n : Nat) (hn : n ≤ q.tickets.length)
    (h : downInv q.tickets n i) :
    heapOrd (downHeap q i n).tickets n := by
  induction q, i, n using downHeap.induct with
  | case1 q i n h1 h2 ih =>
      rw [downHeap, if_pos h1, if_pos h2]
      have hinv := downInv_swap q i n hn h1 h2 h
      apply ih
      · rw [swapQ_tickets_length]; exact hn
      · rw [swapQ_tickets]; exact hinv
  | case2 q i n h1 h2 =>
      rw [downHeap, if_pos h1, if_neg h2]
      intro p c hc hcc
      by_cases hpi : p = i
      · have hstop : lessTicket (nth q.tickets (pickChild q i n)) (nth q.tickets i) = false := by
          have := Bool.eq_false_iff.mpr h2
          rw [lessQ_eq] at this
          exact this
        have hbest := pickChild_best q i n h1 c (by rw [hpi] at hcc; exact hcc) hc
        rw [hpi]
        exact lessTicket_false_trans hbest hstop
      · exact h.1 p c hc hcc hpi
  | case3 q i n h1 =>
      rw [downHeap, if_neg h1]
      intro p c hc hcc
      by_cases hpi : p = i
      · exfalso; omega
      · exact h.1 p c hc hcc hpi

theorem downInv_after_rootSwap (l : List Ticket) (m : Nat) (hm : m + 1 = l.length)
    (h : heapOrd l l.length) : downInv (swapList l 0 m) m 0 := by
  constructor
  · intro p c hc hcc hp0
    have hci : c ≠ 0 := by omega
    have hcm : c ≠ m := by omega
    have hpm : p ≠ m := by omega
    rw [nth_swapList_other l 0 m c hci hcm, nth_swapList_other l 0 m p hp0 hpm]
    exact h p c (by omega) hcc
  · intro c pp hc hcc hpp
    exfalso; omega

theorem downHeap_nth_ge (q : Queue) (i n : Nat) :
    ∀ k, n ≤ k → nth (downHeap q i n).tickets k = nth q.tickets k := by
  induction q, i, n using downHeap.induct with
  | case1 q i n h1 h2 ih =>
      intro k hk
      have hjn := pickChild_lt q i n h1
      rw [downHeap, if_pos h1, if_pos h2, ih k hk, swapQ_tickets]
      exact nth_swapList_other _ _ _ k (by omega) (by omega)
  | case2 q i n h1 h2 =>
      intro k hk
      rw [downHeap, if_pos h1, if_neg h2]
  | case3 q i n h1 =>
      intro k hk
      rw [downHeap, if_neg h1]

theorem downHeap_perm (q : Queue) (i n : Nat) (hn : n ≤ q.tickets.length) :
    List.Perm (downHeap q i n).tickets q.tickets := by
  induction q, i, n using downHeap.induct with
  | case1 q i n h1 h2 ih =>
      rw [downHeap, if_pos h1, if_pos h2]
      have hjn := pickChild_lt q i n h1
      have h' := ih (by rw [swapQ_tickets_length]; exact hn)
      refine h'.trans ?_
      rw [swapQ_tickets]
      exact swapList_perm _ _ _ (by omega) (by omega)
  | case2 q i n h1 h2 =>
      rw [downHeap, if_pos h1, if_neg h2]
  | case3 q i n h1 =>
      rw [downHeap, if_neg h1]

/-! ### What one `heap.Pop` does -/

theorem popQ_fst (q : Queue) : (q.popQ).1 = nth q.tickets (q.tickets.length - 1) := rfl

theorem popQ_snd_tickets (q : Queue) :
    (q.popQ).2.tickets = q.tickets.take (q.tickets.length - 1) := rfl

theorem popQ_perm (q : Queue) (h0 : 0 < q.tickets.length) :
    List.Perm q.tickets ((q.popQ).1 :: (q.popQ).2.tickets) := by
  have hne : q.tickets ≠ [] := List.ne_nil_of_length_pos h0
  have h1 : (q.popQ).1 = q.tickets.getLast hne := by
    rw [popQ_fst, nth_eq_getElem _ _ (by omega), List.getLast_eq_getElem]
  have h2 : (q.popQ).2.tickets = q.tickets.dropLast := by
    rw [popQ_snd_tickets, List.dropLast_eq_take]
  rw [h1, h2]
  have h3 := List.perm_append_singleton (q.tickets.getLast hne) q.tickets.dropLast
  have h4 : List.Perm q.tickets (q.tickets.dropLast ++ [q.tickets.getLast hne]) := by
    rw [List.dropLast_append_getLast hne]
  exact h4.trans h3

theorem heapPop_fst (q : Queue) (h0 : 0 < q.tickets.length) :
    (heapPop q).1 = nth q.tickets 0 := by
  show ((downHeap (q.swapQ 0 (q.tickets.length - 1)) 0 (q.tickets.length - 1)).popQ).1 = _
  rw [popQ_fst, downHeap_tickets_length, swapQ_tickets_length,
    downHeap_nth_ge _ _ _ (q.tickets.length - 1) (le_refl _), swapQ_tickets]
  exact nth_swapList_snd q.tickets 0 (q.tickets.length - 1) (by omega)

theorem heapPop_perm (q : Queue) (h0 : 0 < q.tickets.length) :
    List.Perm q.tickets ((heapPop q).1 :: (heapPop q).2.tickets) := by
  show List.Perm q.tickets
    (((downHeap (q.swapQ 0 (q.tickets.length - 1)) 0 (q.tickets.length - 1)).popQ).1 ::
      ((downHeap (q.swapQ 0 (q.tickets.length - 1)) 0 (q.tickets.length - 1)).popQ).2.tickets)
  have hperm1 : List.Perm (q.swapQ 0 (q.tickets.length - 1)).tickets q.tickets := by
    rw [swapQ_tickets]
    exact swapList_perm _ _ _ h0 (by omega)
  have hperm2 := downHeap_perm (q.swapQ 0 (q.tickets.length - 1)) 0 (q.tickets.length - 1)
    (by rw [swapQ_tickets_length]; omega)
  have h0' : 0 < (downHeap (q.swapQ 0 (q.tickets.length - 1)) 0
      (q.tickets.length - 1)).tickets.length := by
    rw [downHeap_tickets_length, swapQ_tickets_length]; omega
  have hpop := popQ_perm _ h0'
  exact ((hperm2.trans hperm1).symm).trans hpop

theorem heapPop_heapOrd (q : Queue) (h0 : 0 < q.tickets.length)
    (h : heapOrd q.tickets q.tickets.length) :
    heapOrd (heapPop q).2.tickets ((heapPop q).2.tickets.length) := by
  have hdinv : downInv (q.swapQ 0 (q.tickets.length - 1)).tickets (q.tickets.length - 1) 0 := by
    rw [swapQ_tickets]
    exact downInv_after_rootSwap q.tickets (q.tickets.length - 1) (by omega) h
  have hord := downHeap_heapOrd (q.swapQ 0 (q.tickets.length - 1)) 0 (q.tickets.length - 1)
    (by rw [swapQ_tickets_length]; omega) hdinv
  have hlen : (heapPop q).2.tickets.length = q.tickets.length - 1 := heapPop_snd_tickets_length q
  intro p c hc hcc
  rw [hlen] at hc
  have hc' : c < q.tickets.length - 1 := hc
  have hp' : p < q.tickets.length - 1 := by omega
  show lessTicket
      (nth ((downHeap (q.swapQ 0 (q.tickets.length - 1)) 0 (q.tickets.length - 1)).popQ).2.tickets c)
      (nth ((downHeap (q.swapQ 0 (q.tickets.length - 1)) 0 (q.tickets.length - 1)).popQ).2.tickets p) = false
  rw [popQ_snd_tickets, downHeap_tickets_length, swapQ_tickets_length]
  rw [nth_take _ hc', nth_take _ hp']
  exact hord p c hc' hcc

theorem heapPop_max (q : Queue) (h0 : 0 < q.tickets.length)
    (h : heapOrd q.tickets q.tickets.length) :
    ∀ x ∈ (heapPop q).2.tickets, lessTicket x ((heapPop q).1) = false := by
  intro x hx
  rw [heapPop_fst q h0]
  have hperm := heapPop_perm q h0
  have hxq : x ∈ q.tickets := (hperm.mem_iff).mpr (List.mem_cons_of_mem _ hx)
  obtain ⟨k, hk, rfl⟩ := (mem_iff_nth q.tickets x).mp hxq
  exact heapOrd_root q.tickets q.tickets.length h k hk

/-! ### Equations for the serve loop -/

theorem serveTicket_empty (q : Queue) (h1 : ¬0 < q.tickets.length) :
    ServeTicket q = (none, q) := by
  rw [ServeTicket, if_neg h1]

theorem serveTicket_cancelled (q : Queue) (h1 : 0 < q.tickets.length)
    (h2 : (heapPop q).1.isCancelled = true) :
    ServeTicket q = ServeTicket (heapPop q).2 := by
  rw [ServeTicket, if_pos h1, if_pos h2]

theorem serveTicket_valid (q : Queue) (h1 : 0 < q.tickets.length)
    (h2 : ¬(heapPop q).1.isCancelled = true) :
    ServeTicket q = (some (heapPop q).1, (heapPop q).2) := by
  rw [ServeTicket, if_pos h1, if_neg h2]

theorem serveTicket_some_not_cancelled (q : Queue) :
    ∀ t q', ServeTicket q = (some t, q') → t.isCancelled = false := by
  induction q using ServeTicket.induct with
  | case1 q h1 h2 ih =>
      intro t q' h
      rw [serveTicket_cancelled q h1 h2] at h
      exact ih t q' h
  | case2 q h1 h2 =>
      intro t q' h
      rw [serveTicket_valid q h1 h2] at h
      obtain ⟨h3, h4⟩ := Prod.mk.injEq .. ▸ h
      rw [← Option.some_inj.mp h3]
      exact Bool.eq_false_iff.mpr h2
  | case3 q h1 =>
      intro t q' h
      rw [serveTicket_empty q h1] at h
      exact absurd (congrArg Prod.fst h) (by simp)

theorem serveTicket_some_length (q : Queue) :
    ∀ t q', ServeTicket q = (some t, q') → q'.tickets.length < q.tickets.length := by
  induction q using ServeTicket.induct with
  | case1 q h1 h2 ih =>
      intro t q' h
      rw [serveTicket_cancelled q h1 h2] at h
      have := ih t q' h
      have hlen := heapPop_snd_tickets_length q
      omega
  | case2 q h1 h2 =>
      intro t q' h
      rw [serveTicket_valid q h1 h2] at h
      obtain ⟨h3, h4⟩ := Prod.mk.injEq .. ▸ h
      rw [← h4]
      have hlen := heapPop_snd_tickets_length q
      omega
  | case3 q h1 =>
      intro t q' h
      rw [serveTicket_empty q h1] at h
      exact absurd (congrArg Prod.fst h) (by simp)

theorem serveTicket_spec (q : Queue) (h : heapOrd q.tickets q.tickets.length) :
    ∀ t q', ServeTicket q = (some t, q') →
      heapOrd q'.tickets q'.tickets.length
      ∧ t ∈ q.tickets
      ∧ (∀ x ∈ q'.tickets, lessTicket x t = false)
      ∧ (∀ x ∈ q'.tickets, x ∈ q.tickets) := by
  induction q using ServeTicket.induct with
  | case1 q h1 h2 ih =>
      intro t q' hserve
      rw [serveTicket_cancelled q h1 h2] at hserve
      have hperm := heapPop_perm q h1
      obtain ⟨ho, hmem, hmax, hsub⟩ := ih (heapPop_heapOrd q h1 h) t q' hserve
      refine ⟨ho, ?_, hmax, ?_⟩
      · exact (hperm.mem_iff).mpr (List.mem_cons_of_mem _ hmem)
      · intro x hx
        exact (hperm.mem_iff).mpr (List.mem_cons_of_mem _ (hsub x hx))
  | case2 q h1 h2 =>
      intro t q' hserve
      rw [serveTicket_valid q h1 h2] at hserve
      obtain ⟨h3, h4⟩ := Prod.mk.injEq .. ▸ hserve
      have ht : t = (heapPop q).1 := (Option.some_inj.mp h3).symm
      have hperm := heapPop_perm q h1
      subst ht
      rw [← h4]
      refine ⟨heapPop_heapOrd q h1 h, ?_, heapPop_max q h1 h, ?_⟩
      · exact (hperm.mem_iff).mpr (List.mem_cons_self _ _)
      · intro x hx
        exact (hperm.mem_iff).mpr (List.mem_cons_of_mem _ hx)
  | case3 q h1 =>
      intro t q' hserve
      rw [serveTicket_empty q h1] at hserve
      exact absurd (congrArg Prod.fst hserve) (by simp)

theorem serveTicket_none_iff (q : Queue) :
    (ServeTicket q).1 = none ↔ ∀ t ∈ q.tickets, t.isCancelled = true := by
  induction q using ServeTicket.induct with
  | case1 q h1 h2 ih =>
      rw [serveTicket_cancelled q h1 h2]
      have hperm := heapPop_perm q h1
      constructor
      · intro hnone t ht
        rcases List.mem_cons.mp (hperm.subset ht) with rfl | ht'
        · exact h2
        · exact ih.mp hnone t ht'
      · intro hall
        refine ih.mpr ?_
        intro t ht
        exact hall t ((hperm.mem_iff).mpr (List.mem_cons_of_mem _ ht))
  | case2 q h1 h2 =>
      rw [serveTicket_valid q h1 h2]
      constructor
      · intro hnone
        exact absurd hnone (by simp)
      · intro hall
        have hmem : (heapPop q).1 ∈ q.tickets :=
          ((heapPop_perm q h1).mem_iff).mpr (List.mem_cons_self _ _)
        exact absurd (hall _ hmem) h2
  | case3 q h1 =>
      rw [serveTicket_empty q h1]
      have hnil : q.tickets = [] := by
        cases hq : q.tickets with
        | nil => rfl
        | cons a l => rw [hq] at h1; simp at h1
      simp [hnil]

/-! ### The index map under the serve loop -/

theorem mapGet?_mapSet_ne (m : List (Nat × Nat)) (k v x : Nat) (h : k ≠ x) :
    mapGet? (mapSet m k v) x = mapGet? m x := by
  induction m with
  | nil =>
      show mapGet? [(k, v)] x = mapGet? [] x
      show (if k = x then some v else mapGet? [] x) = mapGet? [] x
      rw [if_neg h]
  | cons p rest ih =>
      obtain ⟨a, b⟩ := p
      show mapGet? (if a = k then (k, v) :: rest else (a, b) :: mapSet rest k v) x = _
      by_cases hak : a = k
      · rw [if_pos hak]
        show (if k = x then some v else mapGet? rest x) =
          (if a = x then some b else mapGet? rest x)
        rw [if_neg h, if_neg (by rw [hak]; exact h)]
      · rw [if_neg hak]
        show (if a = x then some b else mapGet? (mapSet rest k v) x) =
          (if a = x then some b else mapGet? rest x)
        by_cases hax : a = x
        · rw [if_pos hax, if_pos hax]
        · rw [if_neg hax, if_neg hax, ih]

theorem mapGet?_mapDel (m : List (Nat × Nat)) (k x : Nat) :
    mapGet? (mapDel m k) x = if x = k then none else mapGet? m x := by
  induction m with
  | nil =>
      by_cases hxk : x = k
      · rw [if_pos hxk]; rfl
      · rw [if_neg hxk]; rfl
  | cons p rest ih =>
      obtain ⟨a, b⟩ := p
      show mapGet? (if a = k then mapDel rest k else (a, b) :: mapDel rest k) x = _
      by_cases hak : a = k
      · rw [if_pos hak, ih]
        by_cases hxk : x = k
        · rw [if_pos hxk, if_pos hxk]
        · rw [if_neg hxk, if_neg hxk]
          show mapGet? rest x = if a = x then some b else mapGet? rest x
          rw [if_neg (by omega)]
      · rw [if_neg hak]
        show (if a = x then some b else mapGet? (mapDel rest k) x) = _
        by_cases hax : a = x
        · rw [if_pos hax, if_neg (by omega)]
          show some b = if a = x then some b else mapGet? rest x
          rw [if_pos hax]
        · rw [if_neg hax, ih]
          by_cases hxk : x = k
          · rw [if_pos hxk, if_pos hxk]
          · rw [if_neg hxk, if_neg hxk]
            show mapGet? rest x = if a = x then some b else mapGet? rest x
            rw [if_neg hax]

/-- `x` is recorded nowhere: not a key of the index map and not the number of
any live ticket. -/
def numberAbsent (q : Queue) (x : Nat) : Prop :=
  mapGet? q.ticketIndexMap x = none ∧ ∀ t ∈ q.tickets, t.number ≠ x

theorem swapQ_absent (q : Queue) (i j x : Nat) (hi : i < q.tickets.length)
    (hj : j < q.tickets.length) (h : numberAbsent q x) : numberAbsent (q.swapQ i j) x := by
  obtain ⟨hmap, hnum⟩ := h
  constructor
  · show mapGet? (mapSet (mapSet q.ticketIndexMap (nth q.tickets j).number i)
      (nth q.tickets i).number j) x = none
    rw [mapGet?_mapSet_ne _ _ _ _ (hnum _ (nth_mem q.tickets i hi)),
      mapGet?_mapSet_ne _ _ _ _ (hnum _ (nth_mem q.tickets j hj))]
    exact hmap
  · intro t ht
    rw [swapQ_tickets] at ht
    exact hnum t (mem_of_mem_swapList hi hj ht)

theorem downHeap_absent (q : Queue) (i n x : Nat) (hn : n ≤ q.tickets.length)
    (h : numberAbsent q x) : numberAbsent (downHeap q i n) x := by
  induction q, i, n using downHeap.induct with
  | case1 q i n h1 h2 ih =>
      rw [downHeap, if_pos h1, if_pos h2]
      have hjn := pickChild_lt q i n h1
      exact ih (by rw [swapQ_tickets_length]; exact hn)
        (swapQ_absent q i _ x (by omega) (by omega) h)
  | case2 q i n h1 h2 =>
      rw [downHeap, if_pos h1, if_neg h2]
      exact h
  | case3 q i n h1 =>
      rw [downHeap, if_neg h1]
      exact h

theorem popQ_snd_ticketIndexMap (q : Queue) :
    (q.popQ).2.ticketIndexMap = mapDel q.ticketIndexMap ((q.popQ).1.number) := rfl

theorem popQ_absent (q : Queue) (x : Nat) (h : numberAbsent q x) :
    numberAbsent (q.popQ).2 x := by
  obtain ⟨hmap, hnum⟩ := h
  constructor
  · rw [popQ_snd_ticketIndexMap, mapGet?_mapDel]
    by_cases hx : x = (q.popQ).1.number
    · rw [if_pos hx]
    · rw [if_neg hx]; exact hmap
  · intro t ht
    rw [popQ_snd_tickets] at ht
    exact hnum t (List.take_subset _ _ ht)

theorem heapPop_absent (q : Queue) (x : Nat) (h0 : 0 < q.tickets.length)
    (h : numberAbsent q x) : numberAbsent (heapPop q).2 x := by
  show numberAbsent ((downHeap (q.swapQ 0 (q.tickets.length - 1)) 0
    (q.tickets.length - 1)).popQ).2 x
  apply popQ_absent
  apply downHeap_absent _ _ _ _ (by rw [swapQ_tickets_length]; omega)
  exact swapQ_absent q 0 _ x h0 (by omega) h

theorem heapPop_nodup (q : Queue) (h0 : 0 < q.tickets.length)
    (h : (q.tickets.map Ticket.number).Nodup) :
    ((heapPop q).2.tickets.map Ticket.number).Nodup := by
  have hperm := (heapPop_perm q h0).map Ticket.number
  have := hperm.nodup_iff.mp h
  exact (List.nodup_cons.mp (by simpa using this)).2

theorem heapPop_popped_absent (q : Queue) (h0 : 0 < q.tickets.length)
    (h : (q.tickets.map Ticket.number).Nodup) :
    numberAbsent (heapPop q).2 ((heapPop q).1.number) := by
  constructor
  · have he : (heapPop q).1 = ((downHeap (q.swapQ 0 (q.tickets.length - 1)) 0
        (q.tickets.length - 1)).popQ).1 := rfl
    show mapGet? ((downHeap (q.swapQ 0 (q.tickets.length - 1)) 0
      (q.tickets.length - 1)).popQ).2.ticketIndexMap ((heapPop q).1.number) = none
    rw [he, popQ_snd_ticketIndexMap, mapGet?_mapDel, if_pos rfl]
  · intro t ht
    have hperm := (heapPop_perm q h0).map Ticket.number
    have hnodup := hperm.nodup_iff.mp h
    have hcons : ((heapPop q).1.number :: (heapPop q).2.tickets.map Ticket.number).Nodup := by
      simpa using hnodup
    have hnotmem := (List.nodup_cons.mp hcons).1
    intro he
    exact hnotmem (he ▸ List.mem_map_of_mem Ticket.number ht)

theorem serveTicket_absent (q : Queue) (x : Nat) :
    numberAbsent q x → numberAbsent (ServeTicket q).2 x := by
  induction q using ServeTicket.induct with
  | case1 q h1 h2 ih =>
      intro h
      rw [serveTicket_cancelled q h1 h2]
      exact ih (heapPop_absent q x h1 h)
  | case2 q h1 h2 =>
      intro h
      rw [serveTicket_valid q h1 h2]
      exact heapPop_absent q x h1 h
  | case3 q h1 =>
      intro h
      rw [serveTicket_empty q h1]
      exact h

/-! ### The serve loop's discarded tickets -/

/-- The cancelled tickets the serve loop pops and throws away, in pop order. -/
def serveDiscards (q : Queue) : List Ticket :=
  if 0 < q.tickets.length then
    if (heapPop q).1.isCancelled then (heapPop q).1 :: serveDiscards (heapPop q).2
    else []
  else []
termination_by q.tickets.length
decreasing_by
  have h := heapPop_snd_tickets_length q
  omega

theorem serveDiscards_cancelled (q : Queue) (h1 : 0 < q.tickets.length)
    (h2 : (heapPop q).1.isCancelled = true) :
    serveDiscards q = (heapPop q).1 :: serveDiscards (heapPop q).2 := by
  rw [serveDiscards, if_pos h1, if_pos h2]

theorem serveDiscards_valid (q : Queue) (h1 : 0 < q.tickets.length)
    (h2 : ¬(heapPop q).1.isCancelled = true) :
    serveDiscards q = [] := by
  rw [serveDiscards, if_pos h1, if_neg h2]

theorem serveDiscards_empty (q : Queue) (h1 : ¬0 < q.tickets.length) :
    serveDiscards q = [] := by
  rw [serveDiscards, if_neg h1]

theorem serve_accounting (q : Queue) :
    List.Perm q.tickets
      (serveDiscards q ++ ((ServeTicket q).1.toList ++ (ServeTicket q).2.tickets))
    ∧ ∀ d ∈ serveDiscards q, d.isCancelled = true := by
  induction q using ServeTicket.induct with
  | case1 q h1 h2 ih =>
      rw [serveDiscards_cancelled q h1 h2, serveTicket_cancelled q h1 h2]
      obtain ⟨ihp, ihc⟩ := ih
      constructor
      · have hperm := heapPop_perm q h1
        have := hperm.trans (List.Perm.cons (heapPop q).1 ihp)
        simpa using this
      · intro d hd
        rcases List.mem_cons.mp hd with rfl | hd'
        · exact h2
        · exact ihc d hd'
  | case2 q h1 h2 =>
      rw [serveDiscards_valid q h1 h2, serveTicket_valid q h1 h2]
      constructor
      · simpa using heapPop_perm q h1
      · intro d hd
        simp at hd
  | case3 q h1 =>
      rw [serveDiscards_empty q h1, serveTicket_empty q h1]
      constructor
      · simp
      · intro d hd
        simp at hd

theorem serve_discards_absent (q : Queue) (h : (q.tickets.map Ticket.number).Nodup) :
    ∀ d ∈ serveDiscards q, numberAbsent (ServeTicket q).2 d.number := by
  induction q using ServeTicket.induct with
  | case1 q h1 h2 ih =>
      intro d hd
      rw [serveTicket_cancelled q h1 h2]
      rw [serveDiscards_cancelled q h1 h2] at hd
      rcases List.mem_cons.mp hd with rfl | hd'
      · exact serveTicket_absent _ _ (heapPop_popped_absent q h1 h)
      · exact ih (heapPop_nodup q h1 h) d hd'
  | case2 q h1 h2 =>
      intro d hd
      rw [serveDiscards_valid q h1 h2] at hd
      simp at hd
  | case3 q h1 =>
      intro d hd
      rw [serveDiscards_empty q h1] at hd
      simp at hd

/-! ### Draining the queue -/

/-- Repeatedly serve until the queue reports empty, collecting the returned
tickets in order. -/
def drainQueue (q : Queue) : List Ticket :=
  match _hs : ServeTicket q with
  | (some t, q') => t :: drainQueue q'
  | (none, _) => []
termination_by q.tickets.length
decreasing_by exact serveTicket_some_length q t q' _hs

theorem drainQueue_some (q : Queue) (t : Ticket) (q' : Queue)
    (h : ServeTicket q = (some t, q')) : drainQueue q = t :: drainQueue q' := by
  rw [drainQueue]
  split
  next t' q'' heq =>
      rw [h] at heq
      injection heq with hA hB
      injection hA with hA
      rw [← hA, ← hB]
  next x heq =>
      rw [h] at heq
      exact absurd (congrArg Prod.fst heq) (by simp)

theorem drainQueue_none (q : Queue) (q'' : Queue) (h : ServeTicket q = (none, q'')) :
    drainQueue q = [] := by
  rw [drainQueue]
  split
  next t' q' heq =>
      rw [h] at heq
      exact absurd (congrArg Prod.fst heq) (by simp)
  next x heq => rfl

theorem drainQueue_sorted_mem (q : Queue) (h : heapOrd q.tickets q.tickets.length) :
    List.Pairwise (fun a b => lessTicket b a = false) (drainQueue q)
    ∧ ∀ x ∈ drainQueue q, x ∈ q.tickets := by
  induction q using drainQueue.induct with
  | case1 q t q' heq ih =>
      obtain ⟨ho, hmem, hmax, hsub⟩ := serveTicket_spec q h t q' heq
      obtain ⟨ihs, ihm⟩ := ih ho
      rw [drainQueue_some q t q' heq]
      constructor
      · refine List.Pairwise.cons ?_ ihs
        intro b hb
        exact hmax b (ihm b hb)
      · intro x hx
        rcases List.mem_cons.mp hx with rfl | hx'
        · exact hmem
        · exact hsub x (ihm x hx')
  | case2 q q'' heq =>
      rw [drainQueue_none q q'' heq]
      exact ⟨List.Pairwise.nil, by intro x hx; simp at hx⟩

/-! ### Heap order is preserved by every operation -/

theorem issueTicket_snd_tickets (q : Queue) (nm : String) (pr now : Nat) :
    (IssueTicket q nm pr now).2.tickets =
      (heapPush q { number := q.nextTicketNum, name := nm, queueTime := now,
                    priority := pr, createdAt := now, isCancelled := false }).tickets := rfl

theorem issueTicket_heapOrd (q : Queue) (nm : String) (pr now : Nat)
    (h : heapOrd q.tickets q.tickets.length) :
    heapOrd (IssueTicket q nm pr now).2.tickets
      ((IssueTicket q nm pr now).2.tickets.length) := by
  rw [issueTicket_snd_tickets, heapPush_tickets_length]
  exact heapPush_heapOrd q _ h

theorem cancelTicket_snd_tickets (q : Queue) (n : Nat) :
    (CancelTicket q n).2.tickets =
      match mapGet? q.ticketIndexMap n with
      | some index => q.tickets.set index { nth q.tickets index with isCancelled := true }
      | none => q.tickets := by
  unfold CancelTicket
  cases mapGet? q.ticketIndexMap n <;> rfl

theorem cancelTicket_heapOrd (q : Queue) (n : Nat)
    (h : heapOrd q.tickets q.tickets.length) :
    heapOrd (CancelTicket q n).2.tickets ((CancelTicket q n).2.tickets.length) := by
  rw [cancelTicket_snd_tickets]
  cases hm : mapGet? q.ticketIndexMap n with
  | none => exact h
  | some idx =>
      show heapOrd (q.tickets.set idx { nth q.tickets idx with isCancelled := true })
        ((q.tickets.set idx { nth q.tickets idx with isCancelled := true }).length)
      by_cases hidx : idx < q.tickets.length
      · have hnth : ∀ k,
            (nth (q.tickets.set idx { nth q.tickets idx with isCancelled := true }) k).priority
              = (nth q.tickets k).priority ∧
            (nth (q.tickets.set idx { nth q.tickets idx with isCancelled := true }) k).createdAt
              = (nth q.tickets k).createdAt := by
          intro k
          by_cases hk : idx = k
          · subst hk
            rw [nth_set_self _ _ _ hidx]
            exact ⟨rfl, rfl⟩
          · rw [nth_set_ne _ _ hk]
            exact ⟨rfl, rfl⟩
        intro p c hc hcc
        rw [List.length_set] at hc
        rw [lessTicket_congr (hnth c).1 (hnth c).2 (hnth p).1 (hnth p).2]
        exact h p c hc hcc
      · rw [List.set_eq_of_length_le (le_of_not_lt hidx)]
        exact h

/-! ### Operation sequences -/

/-- Operations a client can interleave: issue a ticket or cancel a number. -/
inductive QOp where
  | issue (name : String) (priority : Nat)
  | cancel (ticketNumber : Nat)

/-- Run a list of operations left to right, the clock ticking once per
operation, so creation times strictly increase across issuances. -/
def runOps : Queue → Nat → List QOp → Queue
  | q, _, [] => q
  | q, now, QOp.issue nm pr :: rest => runOps (IssueTicket q nm pr now).2 (now + 1) rest
  | q, now, QOp.cancel n :: rest => runOps (CancelTicket q n).2 (now + 1) rest

theorem runOps_heapOrd (ops : List QOp) :
    ∀ (q : Queue) (now : Nat), heapOrd q.tickets q.tickets.length →
      heapOrd (runOps q now ops).tickets ((runOps q now ops).tickets.length) := by
  induction ops with
  | nil => intro q now h; exact h
  | cons op rest ih =>
      intro q now h
      cases op with
      | issue nm pr => exact ih _ _ (issueTicket_heapOrd q nm pr now h)
      | cancel n => exact ih _ _ (cancelTicket_heapOrd q n h)

/-! ### Concrete states exercising the index-map bookkeeping -/

/-- The queue after `IssueTicket("Alice", 1)` then `IssueTicket("Bob", 2)` on a
fresh queue (instants 0 and 1). Bob's ticket sifts up to the root, and the
assignment `ticketIndexMap[number] = len(tickets)-1` performed by
`IssueTicket` AFTER `heap.Push` overwrites the entry the sift-up had
corrected. -/
def qIssueTwo : Queue := (IssueTicket (IssueTicket NewQueue "Alice" 1 0).2 "Bob" 2 1).2

/-- The state `qIssueTwo` after `CancelTicket(0)` (which correctly cancels
Alice through her still-accurate index entry). -/
def qCancelZero : Queue := (CancelTicket qIssueTwo 0).2

/-- C1 (code_bug evaluation): after two `IssueTicket` calls the index map and
the collection disagree: the ticket numbered 1 is stored at position 0, but
the index entry for number 1 says position 1 — a position that holds the
ticket numbered 0. The repository's own consistency test
(`checkTicketConsistency`) checks exactly the property this state violates. -/
theorem claim1_index_inconsistent_eval :
    (nth qIssueTwo.tickets 0).number = 1
    ∧ mapGet? qIssueTwo.ticketIndexMap 1 = some 1
    ∧ (nth qIssueTwo.tickets 1).number = 0
    ∧ qIssueTwo.tickets.length = 2 := by
  simp [qIssueTwo, IssueTicket, NewQueue, heapPush, Queue.pushQ, upHeap, Queue.swapQ,
    Queue.lessQ, lessTicket, mapSet, mapGet?, u32, nth, List.getElem_cons_succ,
    List.getElem_cons_zero]

/-- C2 (code_bug evaluation): `ServeCustomer` on an empty queue returns before
`defer bc.wg.Done()` is registered, so zero completion signals are retired —
whatever handler is supplied — where the spec demands exactly one. -/
theorem claim2_empty_queue_no_done_eval :
    (ServeCustomer NewQueue (fun _ => Except.ok ())).2 = 0
    ∧ (ServeCustomer NewQueue (fun _ => Except.error "boom")).2 = 0 := by
  constructor <;> simp [ServeCustomer, ServeTicket, NewQueue]

/-- C3: for any operation sequence (creation instants strictly increasing, one
tick per operation) run from a fresh queue, the tickets produced by repeated
`ServeTicket` calls come out in non-increasing priority order, and among equal
priorities in increasing creation-time order. -/
theorem claim3_serve_priority_order (ops : List QOp) (startNow : Nat) :
    List.Pairwise
      (fun a b => b.priority < a.priority ∨ (a.priority = b.priority ∧ a.createdAt ≤ b.createdAt))
      (drainQueue (runOps NewQueue startNow ops)) := by
  have h0 : heapOrd NewQueue.tickets NewQueue.tickets.length := by
    intro p c hc hcc
    simp [NewQueue] at hc
  have hord := runOps_heapOrd ops NewQueue startNow h0
  have hs := (drainQueue_sorted_mem _ hord).1
  refine hs.imp ?_
  intro a b hab
  rw [lessTicket_false_iff] at hab
  omega

/-- C4: `ServeTicket` never returns a cancelled ticket; every cancelled ticket
it extracts is discarded permanently — gone from the collection, its number
gone from the index — and never reinserted (the final state plus the
discards plus the returned ticket is a permutation of the initial state, so
nothing is created or duplicated). Ticket numbers are assumed pairwise
distinct, as issuance guarantees. -/
theorem claim4_cancelled_never_served (q : Queue)
    (hnd : (q.tickets.map Ticket.number).Nodup) :
    (∀ t, (ServeTicket q).1 = some t → t.isCancelled = false)
    ∧ (∀ d ∈ serveDiscards q, d.isCancelled = true)
    ∧ List.Perm q.tickets
        (serveDiscards q ++ ((ServeTicket q).1.toList ++ (ServeTicket q).2.tickets))
    ∧ (∀ d ∈ serveDiscards q,
        mapGet? (ServeTicket q).2.ticketIndexMap d.number = none
        ∧ d ∉ (ServeTicket q).2.tickets) := by
  refine ⟨?_, (serve_accounting q).2, (serve_accounting q).1, ?_⟩
  · intro t ht
    have he : ServeTicket q = (some t, (ServeTicket q).2) := by rw [← ht]
    exact serveTicket_some_not_cancelled q t _ he
  · intro d hd
    obtain ⟨hmap, hnum⟩ := serve_discards_absent q hnd d hd
    exact ⟨hmap, fun hdm => hnum d hdm rfl⟩

/-- Concrete two-ticket queue (consistent, higher priority cancelled) used to
witness hypothesis-bearing claims at a concrete input. -/
def qWitness : Queue :=
  { tickets :=
      [{ number := 1, name := "B", queueTime := 1, priority := 7, createdAt := 1,
         isCancelled := true },
       { number := 0, name := "A", queueTime := 0, priority := 3, createdAt := 0,
         isCancelled := false }]
    nextTicketNum := 2
    ticketIndexMap := [(1, 0), (0, 1)] }

/-- C4 witness: the theorem applied at the concrete queue `qWitness`. -/
theorem claim4_witness :
    (∀ t, (ServeTicket qWitness).1 = some t → t.isCancelled = false)
    ∧ (∀ d ∈ serveDiscards qWitness, d.isCancelled = true)
    ∧ List.Perm qWitness.tickets
        (serveDiscards qWitness ++
          ((ServeTicket qWitness).1.toList ++ (ServeTicket qWitness).2.tickets))
    ∧ (∀ d ∈ serveDiscards qWitness,
        mapGet? (ServeTicket qWitness).2.ticketIndexMap d.number = none
        ∧ d ∉ (ServeTicket qWitness).2.tickets) :=
  claim4_cancelled_never_served qWitness (by decide)

/-- C5: `ServeTicket` reports the `no customers in queue` failure (modelled
`none`) exactly when the structure holds no non-cancelled ticket — in
particular on a fresh queue — and otherwise returns a ticket; the function is
total, so it neither blocks nor crashes. -/
theorem claim5_serve_none_iff_all_cancelled (q : Queue) :
    (ServeTicket q).1 = none ↔ ∀ t ∈ q.tickets, t.isCancelled = true :=
  serveTicket_none_iff q

/-- C6: `ResetTicketNumber` refuses (returns false, queue untouched) exactly
when some live ticket is not cancelled; otherwise it clears the collection,
the index and the counter — yielding precisely a fresh queue — and returns
true. -/
theorem claim6_reset_guard (q : Queue) :
    ResetTicketNumber q =
      if ∀ t ∈ q.tickets, t.isCancelled = true then (true, NewQueue) else (false, q) := by
  have hiff : hasActiveTicket q.tickets = false ↔ ∀ t ∈ q.tickets, t.isCancelled = true := by
    induction q.tickets with
    | nil => simp [hasActiveTicket]
    | cons t rest ih =>
        show (if t.isCancelled = false then true else hasActiveTicket rest) = false ↔ _
        by_cases hc : t.isCancelled = false
        · rw [if_pos hc]
          constructor
          · intro h
            exact absurd h (by simp)
          · intro hall
            exact absurd (hall t (List.mem_cons_self _ _)) (by rw [hc]; simp)
        · rw [if_neg hc]
          have hct : t.isCancelled = true := by
            cases hb : t.isCancelled
            · exact absurd hb hc
            · rfl
          rw [ih]
          constructor
          · intro hall x hx
            rcases List.mem_cons.mp hx with rfl | hx'
            · exact hct
            · exact hall x hx'
          · intro hall x hx
            exact hall x (List.mem_cons_of_mem _ hx)
  unfold ResetTicketNumber
  by_cases hb : hasActiveTicket q.tickets = true
  · rw [if_pos hb, if_neg]
    intro hall
    rw [hiff.mpr hall] at hb
    exact absurd hb (by simp)
  · have hb' : hasActiveTicket q.tickets = false := Bool.eq_false_iff.mpr hb
    rw [if_neg hb, if_pos (hiff.mp hb')]
    rfl

/-- C7 (code_bug evaluation): in the reachable state `qIssueTwo`,
`CancelTicket(1)` returns true but — through the corrupted index entry —
marks the ticket numbered 0 cancelled while the ticket numbered 1 stays
uncancelled. -/
theorem claim7_cancel_wrong_ticket_eval :
    (CancelTicket qIssueTwo 1).1 = true
    ∧ (nth (CancelTicket qIssueTwo 1).2.tickets 0).number = 1
    ∧ (nth (CancelTicket qIssueTwo 1).2.tickets 0).isCancelled = false
    ∧ (nth (CancelTicket qIssueTwo 1).2.tickets 1).number = 0
    ∧ (nth (CancelTicket qIssueTwo 1).2.tickets 1).isCancelled = true
    ∧ (CancelTicket qIssueTwo 1).2.tickets.length = 2 := by
  simp [qIssueTwo, IssueTicket, NewQueue, heapPush, Queue.pushQ, upHeap, Queue.swapQ,
    Queue.lessQ, lessTicket, mapSet, mapGet?, u32, nth, CancelTicket,
    List.getElem_cons_succ, List.getElem_cons_zero]
  decide

theorem issueTicket_snd_nextTicketNum (q : Queue) (nm : String) (pr now : Nat) :
    (IssueTicket q nm pr now).2.nextTicketNum = (q.nextTicketNum + 1) % u32 := by
  show ((heapPush q _).nextTicketNum + 1) % u32 = _
  rw [heapPush_nextTicketNum]

theorem issueTicket_snd_tickets_length (q : Queue) (nm : String) (pr now : Nat) :
    (IssueTicket q nm pr now).2.tickets.length = q.tickets.length + 1 := by
  rw [issueTicket_snd_tickets, heapPush_tickets_length]

/-- C8 (amended): `IssueTicket` always succeeds: the returned ticket carries
the old `nextTicketNum` and a clear cancelled flag, the queue grows by one
ticket, and the uint32 counter advances to `(nextTicketNum + 1) % 2^32` —
which is an increment by exactly one whenever `nextTicketNum + 1 < 2^32`.
At `nextTicketNum = 2^32 - 1` the counter wraps to 0 (see the
counterexample), so the unconditional "increments by exactly one / strictly
increasing" of the original claim fails exactly there. -/
theorem claim8_issue_basic (q : Queue) (nm : String) (pr now : Nat) :
    (IssueTicket q nm pr now).1.number = q.nextTicketNum
    ∧ (IssueTicket q nm pr now).1.isCancelled = false
    ∧ (IssueTicket q nm pr now).2.nextTicketNum = (q.nextTicketNum + 1) % u32
    ∧ (IssueTicket q nm pr now).2.tickets.length = q.tickets.length + 1
    ∧ (q.nextTicketNum + 1 < u32 →
        (IssueTicket q nm pr now).2.nextTicketNum = q.nextTicketNum + 1) := by
  refine ⟨rfl, rfl, issueTicket_snd_nextTicketNum q nm pr now,
    issueTicket_snd_tickets_length q nm pr now, ?_⟩
  intro h
  rw [issueTicket_snd_nextTicketNum]
  exact Nat.mod_eq_of_lt h

/-- A queue whose uint32 ticket counter is about to wrap. -/
def qWrap : Queue :=
  { tickets := [], nextTicketNum := u32 - 1, ticketIndexMap := [] }

/-- C8 counterexample: at `nextTicketNum = 2^32 - 1` an `IssueTicket` leaves
the counter at 0, not at the old value plus one — the counter is decremented
by an issuance, refuting the original claim's unconditional increment. -/
theorem claim8_counterexample :
    qWrap.nextTicketNum = u32 - 1
    ∧ (IssueTicket qWrap "Z" 0 0).2.nextTicketNum = 0
    ∧ (IssueTicket qWrap "Z" 0 0).2.nextTicketNum ≠ qWrap.nextTicketNum + 1
    ∧ (IssueTicket qWrap "Z" 0 0).2.nextTicketNum < qWrap.nextTicketNum := by
  have h0 : (IssueTicket qWrap "Z" 0 0).2.nextTicketNum = 0 := by
    rw [issueTicket_snd_nextTicketNum]
    show (u32 - 1 + 1) % u32 = 0
    have he : u32 - 1 + 1 = u32 := by norm_num [u32]
    rw [he, Nat.mod_self]
  refine ⟨rfl, h0, ?_, ?_⟩
  · rw [h0]
    show (0 : Nat) ≠ u32 - 1 + 1
    norm_num [u32]
  · rw [h0]
    show (0 : Nat) < u32 - 1
    norm_num [u32]

/-- C9 (code_bug evaluation): in the reachable state `qCancelZero` (two
issues, then a correct cancellation of ticket 0), `IsValidTicket(1)` returns
false although number 1 is present in the index and the ticket numbered 1 is
not cancelled: the corrupted entry for number 1 points at the slot holding
the cancelled ticket 0. -/
theorem claim9_isValid_wrong_eval :
    IsValidTicket qCancelZero 1 = false
    ∧ mapGet? qCancelZero.ticketIndexMap 1 = some 1
    ∧ (nth qCancelZero.tickets 0).number = 1
    ∧ (nth qCancelZero.tickets 0).isCancelled = false
    ∧ (nth qCancelZero.tickets 1).number = 0
    ∧ qCancelZero.tickets.length = 2 := by
  simp [qCancelZero, qIssueTwo, IssueTicket, NewQueue, heapPush, Queue.pushQ, upHeap,
    Queue.swapQ, Queue.lessQ, lessTicket, mapSet, mapGet?, u32, nth, CancelTicket,
    IsValidTicket, List.getElem_cons_succ, List.getElem_cons_zero]
  decide

/-- C10: the first ticket issued on a fresh queue, and the first ticket issued
after any successful reset, both carry number 0. -/
theorem claim10_numbering_starts_at_zero (nm1 : String) (pr1 now1 : Nat) (q : Queue)
    (nm2 : String) (pr2 now2 : Nat) (h : (ResetTicketNumber q).1 = true) :
    (IssueTicket NewQueue nm1 pr1 now1).1.number = 0
    ∧ (IssueTicket (ResetTicketNumber q).2 nm2 pr2 now2).1.number = 0 := by
  constructor
  · rfl
  · show (ResetTicketNumber q).2.nextTicketNum = 0
    unfold ResetTicketNumber at h ⊢
    by_cases hb : hasActiveTicket q.tickets = true
    · rw [if_pos hb] at h
      simp at h
    · rw [if_neg hb]

/-- C10 witness: the theorem applied at a fresh queue, whose reset succeeds. -/
theorem claim10_witness :
    (IssueTicket NewQueue "A" 1 0).1.number = 0
    ∧ (IssueTicket (ResetTicketNumber NewQueue).2 "B" 2 5).1.number = 0 :=
  claim10_numbering_starts_at_zero "A" 1 0 NewQueue "B" 2 5 (by decide)

end QSys
